import Mathlib

/-!
Verification of the localhost-tunneling repository's port/route registry,
handshake wire protocol, transport adapter, and reconnection supervisor.

The Go source is shallowly embedded: the package-level registry state
(`nextPort`, `activePorts`, `hostMap` in `server/tunnel/handler.go` and in
`server/server.go`, which hold identical copies of this state) becomes the
`Registry` structure; the registry-mutating functions become pure state
transformers; I/O outcomes (WebSocket reads/writes, the Caddy call) are
passed as explicit parameters.
-/

namespace Tunnel

/-- Registry state shared by `server/tunnel/handler.go` (lines 18-24) and
`server/server.go` (lines 20-29): `nextPort` (initially 10000), the
`activePorts` set (a `map[int]bool` used only for membership), and
`hostMap : map[string]int` embedded as an association list. -/
structure Registry where
  nextPort : ℕ
  activePorts : Finset ℕ
  hostMap : List (String × ℕ)
deriving DecidableEq

/-- The initial registry: `nextPort = 10000`, no active ports, empty host map. -/
def Registry.init : Registry := ⟨10000, ∅, []⟩

/-- The scan in `AssignPort` passes one currently active port at each step,
so the number of active ports at or above the probe strictly decreases. -/
theorem scan_measure {a : Finset ℕ} {p : ℕ} (h : p ∈ a) :
    (a.filter fun q => p + 1 ≤ q).card < (a.filter fun q => p ≤ q).card := by
  apply Finset.card_lt_card
  rw [Finset.ssubset_iff_of_subset]
  · refine ⟨p, Finset.mem_filter.mpr ⟨h, le_refl p⟩, fun hc => ?_⟩
    have := (Finset.mem_filter.mp hc).2
    omega
  · intro x hx
    rcases Finset.mem_filter.mp hx with ⟨hxa, hxp⟩
    exact Finset.mem_filter.mpr ⟨hxa, by omega⟩

/-- The port scan loop of `Handler.AssignPort` (handler.go:229-231) and the
inline copy in `handleTunnel` (server.go:155-157):
`for activePorts[port] { port++ }`. -/
def scanPort (a : Finset ℕ) (p : ℕ) : ℕ :=
  if h : p ∈ a then scanPort a (p + 1) else p
termination_by (a.filter fun q => p ≤ q).card
decreasing_by
  exact scan_measure h

/-- Unfolding equation for `scanPort`. -/
theorem scanPort_eq (a : Finset ℕ) (p : ℕ) :
    scanPort a p = if p ∈ a then scanPort a (p + 1) else p := by
  rw [scanPort]
  split <;> simp_all

theorem scanPort_empty (p : ℕ) : scanPort ∅ p = p := by
  rw [scanPort_eq]
  simp

/-- The scan returns a port that is not active and not below its start. -/
theorem scanPort_spec (a : Finset ℕ) :
    ∀ fuel p, (a.filter fun q => p ≤ q).card ≤ fuel →
      scanPort a p ∉ a ∧ p ≤ scanPort a p := by
  intro fuel
  induction fuel with
  | zero =>
    intro p hp
    have hmem : p ∉ a := by
      intro hpa
      have h1 : p ∈ a.filter fun q => p ≤ q := Finset.mem_filter.mpr ⟨hpa, le_refl p⟩
      have := Finset.card_pos.mpr ⟨p, h1⟩
      omega
    rw [scanPort_eq, if_neg hmem]
    exact ⟨hmem, le_refl p⟩
  | succ fuel ih =>
    intro p hp
    by_cases hpa : p ∈ a
    · have hlt := scan_measure hpa
      have hrec := ih (p + 1) (by omega)
      rw [scanPort_eq, if_pos hpa]
      exact ⟨hrec.1, by omega⟩
    · rw [scanPort_eq, if_neg hpa]
      exact ⟨hpa, le_refl p⟩

theorem scanPort_not_mem (a : Finset ℕ) (p : ℕ) : scanPort a p ∉ a :=
  (scanPort_spec a _ p le_rfl).1

theorem scanPort_ge (a : Finset ℕ) (p : ℕ) : p ≤ scanPort a p :=
  (scanPort_spec a _ p le_rfl).2

/-- `Handler.AssignPort` (handler.go:224-237) / the inline allocation in
`handleTunnel` (server.go:153-160): scan upward from `nextPort` for a port
not marked active, set `nextPort` to one past it, mark it active, return it.
(The `h.wsConn.SetPort(port)` call stores the port on the session connection
and does not touch registry state.) -/
def assignPort (r : Registry) : ℕ × Registry :=
  let port := scanPort r.activePorts r.nextPort
  (port, { r with nextPort := port + 1, activePorts := insert port r.activePorts })

/-- `Handler.AssignPort` as the Go caller sees it: it also returns an `error`
value that is the literal `nil` on every path (`return port, nil`). -/
def assignPortGo (r : Registry) : (ℕ × Option String) × Registry :=
  let pr := assignPort r
  ((pr.1, none), pr.2)

/-- `Handler.ReleasePort` (handler.go:239-243): `delete(activePorts, port)`. -/
def releasePort (r : Registry) (port : ℕ) : Registry :=
  { r with activePorts := r.activePorts.erase port }

/-- Lookup in the embedded `hostMap` (`hostMap[host]`, handler.go:146 /
server.go:358). -/
def lookupHost : List (String × ℕ) → String → Option ℕ
  | [], _ => none
  | (k, v) :: rest, h => if k = h then some v else lookupHost rest h

/-- Insertion into the embedded `hostMap` (`hostMap[host] = port`,
handler.go:245-247 / server.go:163): replace the value if the key is
present, append otherwise. -/
def insertHost : List (String × ℕ) → String → ℕ → List (String × ℕ)
  | [], h, p => [(h, p)]
  | (k, v) :: rest, h, p =>
    if k = h then (k, p) :: rest else (k, v) :: insertHost rest h p

/-- Deletion from the embedded `hostMap` (`delete(hostMap, host)`,
handler.go:249-251). -/
def eraseHost (m : List (String × ℕ)) (h : String) : List (String × ℕ) :=
  m.filter fun kv => kv.1 ≠ h

/-- `Handler.RegisterHost` (handler.go:245-247). -/
def registerHost (r : Registry) (host : String) (port : ℕ) : Registry :=
  { r with hostMap := insertHost r.hostMap host port }

/-- `Handler.UnregisterHost` (handler.go:249-251). -/
def unregisterHost (r : Registry) (host : String) : Registry :=
  { r with hostMap := eraseHost r.hostMap host }

/-- The registry effect of releasing one session's identity — the spec's
`Release(id)`: `ReleasePort` on the session's port followed by
`UnregisterHost` on its host, exactly as `Handler.Close` performs them
(handler.go:253-262). -/
def closeRelease (r : Registry) (port : ℕ) (host : String) : Registry :=
  unregisterHost (releasePort r port) host

/-- A run of `n` consecutive `AssignPort` calls, collecting the returned
ports in order. -/
def allocMany : ℕ → Registry → List ℕ × Registry
  | 0, r => ([], r)
  | n + 1, r =>
    let pr := assignPort r
    let rest := allocMany n pr.2
    (pr.1 :: rest.1, rest.2)

theorem allocMany_ge (n : ℕ) :
    ∀ (r : Registry) (q : ℕ), q ∈ (allocMany n r).1 → r.nextPort ≤ q := by
  induction n with
  | zero => intro r q hq; simp [allocMany] at hq
  | succ n ih =>
    intro r q hq
    simp only [allocMany, List.mem_cons] at hq
    rcases hq with hq | hq
    · subst hq; exact scanPort_ge _ _
    · have h1 := ih (assignPort r).2 q hq
      have h2 : r.nextPort ≤ (assignPort r).1 := scanPort_ge _ _
      have h3 : (assignPort r).2.nextPort = (assignPort r).1 + 1 := rfl
      omega

theorem allocMany_exists_big (n : ℕ) :
    ∀ r : Registry, ∃ q ∈ (allocMany (n + 1) r).1, r.nextPort + n ≤ q := by
  induction n with
  | zero =>
    intro r
    exact ⟨(assignPort r).1, by simp [allocMany], by simpa using scanPort_ge _ _⟩
  | succ n ih =>
    intro r
    obtain ⟨q, hq, hge⟩ := ih (assignPort r).2
    have hcons : (allocMany (n + 1 + 1) r).1
        = (assignPort r).1 :: (allocMany (n + 1) (assignPort r).2).1 := rfl
    refine ⟨q, by rw [hcons]; exact List.mem_cons_of_mem _ hq, ?_⟩
    have h2 : r.nextPort ≤ (assignPort r).1 := scanPort_ge _ _
    have h3 : (assignPort r).2.nextPort = (assignPort r).1 + 1 := rfl
    omega

/-! Decimal rendering: `fmt.Sprintf("%d", port)` in Go corresponds to
`Nat.repr`. To reason about the identity mapping being one-to-one we prove
`Nat.repr` injective by exhibiting a left inverse (a digit parser). -/

/-- Numeric value of a decimal digit character. -/
def charVal (c : Char) : ℕ := c.toNat - 48

/-- Value of a list of decimal digit characters, most significant first. -/
def ofChars (l : List Char) : ℕ := l.foldl (fun a c => 10 * a + charVal c) 0

theorem charVal_digitChar : ∀ d, d < 10 → charVal (Nat.digitChar d) = d := by
  decide

theorem toDigitsCore_append (fuel : ℕ) : ∀ (n : ℕ) (acc : List Char),
    Nat.toDigitsCore 10 fuel n acc = Nat.toDigitsCore 10 fuel n [] ++ acc := by
  induction fuel with
  | zero => intro n acc; simp [Nat.toDigitsCore]
  | succ fuel ih =>
    intro n acc
    simp only [Nat.toDigitsCore]
    by_cases h : n / 10 = 0
    · simp [h]
    · rw [if_neg h, if_neg h, ih (n / 10) (Nat.digitChar (n % 10) :: acc),
        ih (n / 10) [Nat.digitChar (n % 10)]]
      simp

theorem ofChars_toDigitsCore : ∀ fuel n, n < fuel →
    ofChars (Nat.toDigitsCore 10 fuel n []) = n := by
  intro fuel
  induction fuel with
  | zero => intro n hn; omega
  | succ fuel ih =>
    intro n hn
    simp only [Nat.toDigitsCore]
    by_cases h : n / 10 = 0
    · rw [if_pos h]
      have hlt : n < 10 := by omega
      have hself : n % 10 = n := Nat.mod_eq_of_lt hlt
      simp [ofChars, hself, charVal_digitChar n hlt]
    · rw [if_neg h, toDigitsCore_append]
      have hdiv : n / 10 < fuel := by omega
      have ihv := ih (n / 10) hdiv
      simp only [ofChars, List.foldl_append, List.foldl] at ihv ⊢
      rw [ihv, charVal_digitChar _ (by omega)]
      omega

theorem natRepr_injective (m n : ℕ) (h : Nat.repr m = Nat.repr n) : m = n := by
  have hd : Nat.toDigits 10 m = Nat.toDigits 10 n := congrArg String.data h
  have hm : ofChars (Nat.toDigits 10 m) = m :=
    ofChars_toDigitsCore (m + 1) m (by omega)
  have hn : ofChars (Nat.toDigits 10 n) = n :=
    ofChars_toDigitsCore (n + 1) n (by omega)
  rw [hd] at hm
  omega

/-- server.go:162: the public identity
`fmt.Sprintf("%d.%s", serverPort, os.Getenv("DOMAIN"))` — the allocated port
rendered in decimal, a dot, and the configured base domain. -/
def deriveIdentity (port : ℕ) (domain : String) : String :=
  Nat.repr port ++ "." ++ domain

theorem deriveIdentity_inj (p q : ℕ) (d : String) :
    deriveIdentity p d = deriveIdentity q d ↔ p = q := by
  constructor
  · intro h
    have hd : (Nat.repr p).data ++ ([Char.ofNat 46] ++ d.data)
        = (Nat.repr q).data ++ ([Char.ofNat 46] ++ d.data) := by
      have := congrArg String.data h
      simpa [deriveIdentity, String.data_append, List.append_assoc] using this
    have hlen : (Nat.repr p).data.length = (Nat.repr q).data.length := by
      have := congrArg List.length hd
      simp only [List.length_append] at this
      omega
    have := (List.append_inj hd hlen).1
    exact natRepr_injective p q (String.ext this)
  · rintro rfl; rfl

/-! Session traces: the server runs one `Handler` per tunnel connection;
each successful handshake performs one allocation (`AssignPort`), and each
teardown (`Handler.Close`) releases that session's port.  A trace of these
registry events models any interleaving of concurrent sessions (the Go code
serializes all registry mutations under `portMutex`). -/

/-- A registry event: an allocation (a handshake reaching `AssignPort`), or
the teardown of the active session holding `port` (`Handler.Close` calling
`ReleasePort`). -/
inductive Ev where
  | alloc
  | close (port : ℕ)
deriving DecidableEq

/-- The server-wide state: the registry plus the ports currently held by
active sessions (one entry per live `Handler`). -/
structure ServerState where
  reg : Registry
  sessions : List ℕ
deriving DecidableEq

def stepEv (s : ServerState) : Ev → ServerState
  | .alloc =>
    let pr := assignPort s.reg
    ⟨pr.2, pr.1 :: s.sessions⟩
  | .close p =>
    if p ∈ s.sessions then ⟨releasePort s.reg p, s.sessions.erase p⟩ else s

def runEvs (evs : List Ev) : ServerState :=
  evs.foldl stepEv ⟨Registry.init, []⟩

/-- Invariant: active sessions hold pairwise distinct ports, all of which
are marked active in the registry. -/
def SessionsOk (s : ServerState) : Prop :=
  s.sessions.Nodup ∧ ∀ p ∈ s.sessions, p ∈ s.reg.activePorts

theorem stepEv_preserves (s : ServerState) (e : Ev) (h : SessionsOk s) :
    SessionsOk (stepEv s e) := by
  obtain ⟨hnd, hsub⟩ := h
  cases e with
  | alloc =>
    have hfresh : scanPort s.reg.activePorts s.reg.nextPort ∉ s.reg.activePorts :=
      scanPort_not_mem _ _
    refine ⟨List.Nodup.cons (fun hmem => hfresh (hsub _ hmem)) hnd, ?_⟩
    intro p hp
    rcases List.mem_cons.mp hp with hp | hp
    · subst hp; exact Finset.mem_insert_self _ _
    · exact Finset.mem_insert_of_mem (hsub p hp)
  | close q =>
    simp only [stepEv]
    split
    · rename_i hq
      refine ⟨hnd.erase q, ?_⟩
      intro p hp
      have hne : p ≠ q ∧ p ∈ s.sessions := (hnd.mem_erase_iff.mp hp)
      exact Finset.mem_erase.mpr ⟨hne.1, hsub p hne.2⟩
    · exact ⟨hnd, hsub⟩

theorem runEvs_ok (evs : List Ev) : SessionsOk (runEvs evs) := by
  have general : ∀ (l : List Ev) (s : ServerState), SessionsOk s →
      SessionsOk (l.foldl stepEv s) := by
    intro l
    induction l with
    | nil => intro s hs; exact hs
    | cons e rest ih => intro s hs; exact ih _ (stepEv_preserves s e hs)
  exact general evs ⟨Registry.init, []⟩ ⟨List.nodup_nil, by simp⟩

/-! Handshake wire protocol.  gorilla/websocket data messages carry a
message type (TextMessage or BinaryMessage; control frames are handled
below the ReadMessage/NextReader interface) and a payload. -/

/-- The type of a WebSocket data message. -/
inductive MsgType where
  | text
  | binary
deriving DecidableEq

/-- `Connection.SendLocalPort` (client/ws/connection.go:94-101): the first
payload the client sends is the local port string as a TextMessage. -/
def sendLocalPortMsg (localPort : String) : MsgType × String :=
  (.text, localPort)

/-- The server announcement in `handleTunnel` (server.go:171): a single
TextMessage whose payload is the derived subdomain, and nothing else. -/
def announceMsg (port : ℕ) (domain : String) : MsgType × String :=
  (.text, deriveIdentity port domain)

/-- `Connection.WaitForDomain` (client/ws/connection.go:103-114): accept a
text message and return its payload as the public domain; any other
message type is an error. -/
def waitForDomain (m : MsgType × String) : Except String String :=
  match m with
  | (.text, s) => .ok s
  | (.binary, _) => .error "expected text message for domain assignment"

/-- The handshake message of the yamux iteration (main.go:118-120): the
server sends `ws.WriteJSON(map[string]string{"id": id, "base_domain":
baseDomain})` immediately on accept; the client decodes it into an
`{ID, BaseDomain}` pair (main.go:216-222). -/
structure HandshakeInfo where
  id : String
  baseDomain : String
deriving DecidableEq

/-- main.go:119: the structured handshake value the yamux server sends. -/
def runServerHandshakeMsg (id baseDomain : String) : HandshakeInfo :=
  ⟨id, baseDomain⟩

/-- The JSON wire encoding produced by `ws.WriteJSON` for the handshake map
(Go's `encoding/json` marshals map keys in sorted order, so `base_domain`
precedes `id`). -/
def encodeHandshakeJSON (info : HandshakeInfo) : String :=
  "\x7b\"base_domain\":\"" ++ info.baseDomain ++ "\",\"id\":\"" ++ info.id ++ "\"\x7d"

theorem encodeHandshakeJSON_length (info : HandshakeInfo) :
    (encodeHandshakeJSON info).length
      = 26 + info.baseDomain.length + info.id.length := by
  have h1 : ("\x7b\"base_domain\":\"" : String).length = 16 := rfl
  have h2 : ("\",\"id\":\"" : String).length = 8 := rfl
  have h3 : ("\"\x7d" : String).length = 2 := rfl
  simp only [encodeHandshakeJSON, String.length_append, h1, h2, h3]
  omega

/-- `handleTunnel` (server.go:144-192), with its I/O outcomes as explicit
inputs: `readRes` is the result of reading the client's local-port message
(`none` = read error), `writeOk` whether sending the subdomain succeeded,
`caddyOk` whether `configureCaddy` succeeded.  Returns the final registry
state and `some port` iff the handshake completed.  All error paths simply
`return`; server.go contains no call that removes a port from
`activePorts` or an entry from `hostMap`. -/
def handleTunnel (r : Registry) (domain : String) (readRes : Option String)
    (writeOk : Bool) (caddyOk : Bool) : Registry × Option ℕ :=
  match readRes with
  | none => (r, none)
  | some _ =>
    let pr := assignPort r
    let sub := deriveIdentity pr.1 domain
    let r2 := registerHost pr.2 sub pr.1
    if writeOk then
      if caddyOk then (r2, some pr.1) else (r2, none)
    else (r2, none)

/-! Transport adapter: `wsConn` (main.go:38-84) adapts a websocket
connection to a byte stream for yamux.  Incoming physical frames are
modelled as a queue; `readBuf` is the `bytes.Buffer` of the partially
consumed current frame. -/

/-- State of the `wsConn` adapter: the pending incoming frames (message
type and payload bytes) and the partial-read buffer. -/
structure WsState where
  frames : List (MsgType × List ℕ)
  readBuf : List ℕ
deriving DecidableEq

/-- `bytes.Buffer.Read` semantics: reading from an empty buffer with a
non-empty destination yields `io.EOF`; otherwise up to `cap` bytes are
consumed from the front. -/
def bufRead (buf : List ℕ) (cap : ℕ) : Except String (List ℕ × List ℕ) :=
  if buf.isEmpty ∧ 0 < cap then .error "EOF"
  else .ok (buf.take cap, buf.drop cap)

/-- `wsConn.Read` (main.go:47-62): if the buffer is empty, pull the next
frame with `NextReader`; a non-binary frame is a protocol error
(`expected binary message`); a binary frame's payload is copied whole into
the buffer; then bytes are served from the buffer. -/
def wsConnRead (c : WsState) (cap : ℕ) : Except String (List ℕ × WsState) :=
  if c.readBuf.isEmpty then
    match c.frames with
    | [] => .error "connection closed"
    | (t, payload) :: rest =>
      if t = MsgType.binary then
        match bufRead payload cap with
        | .error e => .error e
        | .ok (out, buf) => .ok (out, ⟨rest, buf⟩)
      else .error "expected binary message"
  else
    match bufRead c.readBuf cap with
    | .error e => .error e
    | .ok (out, buf) => .ok (out, ⟨c.frames, buf⟩)

/-- The byte stream an adapter state represents: buffered bytes followed by
all pending frame payloads in order. -/
def streamBytes (c : WsState) : List ℕ :=
  c.readBuf ++ (c.frames.map Prod.snd).flatten

/-! The `ws.Connection.ReadMessage` wrappers — identical code in the client
package (client/ws/connection.go:136-145) and the server package
(server/ws `Connection.ReadMessage`).  The underlying
`websocket.Conn.ReadMessage` result is either an error or a typed
payload; Go's `(message []byte, err error)` pair is modelled as
`Option payload × Option error`. -/

def clientReadMessage (res : Except String (MsgType × List ℕ)) :
    Option (List ℕ) × Option String :=
  match res with
  | .error e => (none, some e)
  | .ok (t, m) => if t = MsgType.binary then (some m, none) else (none, none)

def serverWsReadMessage (res : Except String (MsgType × List ℕ)) :
    Option (List ℕ) × Option String :=
  match res with
  | .error e => (none, some e)
  | .ok (t, m) => if t = MsgType.binary then (some m, none) else (none, none)

/-! Reconnection supervisor (`Connection.Reconnect`,
client/ws/connection.go:158-181, and the identical retry loops in
client/client.go).  `outcome i` abstracts whether attempt `i` (0-based)
fully succeeds (Connect, SendLocalPort and WaitForDomain all return nil).
The loop runs `for i := 0; i < 5; i++`, breaking on success and otherwise
sleeping `time.Duration(1<<uint(i)) * time.Second`. -/

/-- The wait (in seconds) inserted after failed attempt `i`: `1 << i`. -/
def backoff (i : ℕ) : ℕ := 2 ^ i

/-- The retry loop from attempt index `i` with `fuel` remaining iterations:
returns the list of waits inserted (in order) and whether it ended in
success (`err == nil`). -/
def reconnectAux (outcome : ℕ → Bool) : ℕ → ℕ → List ℕ × Bool
  | _, 0 => ([], false)
  | i, fuel + 1 =>
    if outcome i then ([], true)
    else
      let rest := reconnectAux outcome (i + 1) fuel
      (backoff i :: rest.1, rest.2)

/-- `Connection.Reconnect`: five attempts starting at attempt 0. -/
def reconnect (outcome : ℕ → Bool) : List ℕ × Bool :=
  reconnectAux outcome 0 5

/-- What becomes of the client process after a read error triggers
reconnection. -/
inductive ClientFate where
  | running
  | fatalExit (msg : String)
deriving DecidableEq

/-- The caller of `Reconnect` (client tunnel `Handler.Start`):
`if err := h.wsConn.Reconnect(); err != nil { log.WithError(err).Fatal(
"Failed to reconnect after retries") }` — exhausted retries terminate the
process via `logrus.Fatal`; success resumes the read loop. -/
def afterReadError (outcome : ℕ → Bool) : ClientFate :=
  if (reconnect outcome).2 then .running
  else .fatalExit "Failed to reconnect after retries"

/-! Supporting lemmas about the embedded operations. -/

theorem eraseHost_idem (m : List (String × ℕ)) (h : String) :
    eraseHost (eraseHost m h) h = eraseHost m h := by
  simp [eraseHost, List.filter_filter, Bool.and_self]

theorem eraseHost_of_lookup_none (m : List (String × ℕ)) (h : String)
    (hl : lookupHost m h = none) : eraseHost m h = m := by
  induction m with
  | nil => rfl
  | cons kv rest ih =>
    obtain ⟨k, v⟩ := kv
    by_cases hk : k = h
    · simp [lookupHost, hk] at hl
    · simp only [lookupHost, if_neg hk] at hl
      have hrest := ih hl
      unfold eraseHost at hrest ⊢
      rw [List.filter_cons,
        if_pos (show decide ((k, v).1 ≠ h) = true by simp [hk]), hrest]

theorem lookup_insertHost (m : List (String × ℕ)) (h : String) (p : ℕ) :
    lookupHost (insertHost m h p) h = some p := by
  induction m with
  | nil => simp [insertHost, lookupHost]
  | cons kv rest ih =>
    obtain ⟨k, v⟩ := kv
    by_cases hk : k = h
    · simp [insertHost, lookupHost, hk]
    · simp only [insertHost, if_neg hk, lookupHost]
      exact ih

theorem reconnectAux_mem_ge (outcome : ℕ → Bool) :
    ∀ fuel i w, w ∈ (reconnectAux outcome i fuel).1 → 2 ^ i ≤ w := by
  intro fuel
  induction fuel with
  | zero => intro i w hw; simp [reconnectAux] at hw
  | succ fuel ih =>
    intro i w hw
    by_cases h : outcome i
    · simp [reconnectAux, h] at hw
    · simp only [reconnectAux, h, Bool.false_eq_true, if_false, List.mem_cons] at hw
      rcases hw with hw | hw
      · subst hw; exact le_refl _
      · exact le_trans (Nat.pow_le_pow_right (by omega) (Nat.le_succ i)) (ih (i + 1) w hw)

theorem reconnectAux_pairwise (outcome : ℕ → Bool) :
    ∀ fuel i, List.Pairwise (· ≤ ·) (reconnectAux outcome i fuel).1 := by
  intro fuel
  induction fuel with
  | zero => intro i; simp [reconnectAux]
  | succ fuel ih =>
    intro i
    by_cases h : outcome i
    · simp [reconnectAux, h]
    · simp only [reconnectAux, h, Bool.false_eq_true, if_false]
      refine List.Pairwise.cons ?_ (ih (i + 1))
      intro w hw
      exact le_trans (Nat.pow_le_pow_right (by omega) (Nat.le_succ i))
        (reconnectAux_mem_ge outcome fuel (i + 1) w hw)

theorem reconnectAux_len (outcome : ℕ → Bool) :
    ∀ fuel i, (reconnectAux outcome i fuel).1.length ≤ fuel := by
  intro fuel
  induction fuel with
  | zero => intro i; simp [reconnectAux]
  | succ fuel ih =>
    intro i
    by_cases h : outcome i
    · simp [reconnectAux, h]
    · simp only [reconnectAux, h, Bool.false_eq_true, if_false, List.length_cons]
      exact Nat.succ_le_succ (ih (i + 1))

theorem reconnectAux_fail (outcome : ℕ → Bool) :
    ∀ fuel i, (reconnectAux outcome i fuel).2 = false →
      (reconnectAux outcome i fuel).1 = (List.range' i fuel).map backoff := by
  intro fuel
  induction fuel with
  | zero => intro i _; rfl
  | succ fuel ih =>
    intro i hfail
    by_cases h : outcome i
    · simp [reconnectAux, h] at hfail
    · simp only [reconnectAux, h, Bool.false_eq_true, if_false] at hfail ⊢
      rw [List.range'_succ, List.map_cons]
      exact congrArg _ (ih (i + 1) hfail)

/-- Conservation of the byte stream by one `wsConn.Read` call: if all
pending frames are binary, a successful read takes bytes off the front of
the concatenated payload stream and leaves the rest. -/
theorem wsConnRead_ok_stream (c : WsState) (cap : ℕ) (out : List ℕ) (c' : WsState)
    (hbin : ∀ f ∈ c.frames, f.1 = MsgType.binary)
    (h : wsConnRead c cap = .ok (out, c')) :
    out ++ streamBytes c' = streamBytes c := by
  obtain ⟨frames, readBuf⟩ := c
  by_cases hbuf : readBuf = []
  · subst hbuf
    cases frames with
    | nil => simp [wsConnRead] at h
    | cons f rest =>
      obtain ⟨t, payload⟩ := f
      have ht : t = MsgType.binary := hbin (t, payload) (List.mem_cons_self _ _)
      subst ht
      simp only [wsConnRead, List.isEmpty_nil, if_true, bufRead] at h
      by_cases hcap : payload.isEmpty ∧ 0 < cap
      · rw [if_pos hcap] at h
        simp at h
      · rw [if_neg hcap] at h
        simp only [Except.ok.injEq, Prod.mk.injEq] at h
        obtain ⟨hout, hc⟩ := h
        subst hout
        subst hc
        simp only [streamBytes, List.map_cons, List.flatten_cons, List.nil_append]
        rw [← List.append_assoc, List.take_append_drop]
  · have hne : readBuf.isEmpty = false := by
      cases readBuf with
      | nil => exact absurd rfl hbuf
      | cons a l => rfl
    simp only [wsConnRead, hne, Bool.false_eq_true, if_false, bufRead, false_and,
      Except.ok.injEq, Prod.mk.injEq] at h
    obtain ⟨hout, hc⟩ := h
    subst hout
    subst hc
    simp only [streamBytes]
    rw [← List.append_assoc, List.take_append_drop]

/-- The registry after allocating port 10000 from the initial state and
releasing it again (one full session lifecycle). -/
def postRelease : Registry :=
  releasePort (assignPort Registry.init).2 (assignPort Registry.init).1

theorem assignPort_init_fst : (assignPort Registry.init).1 = 10000 := by
  simp [assignPort, Registry.init, scanPort_empty]

theorem postRelease_nextPort : postRelease.nextPort = 10001 := by
  simp [postRelease, releasePort, assignPort, Registry.init, scanPort_empty]

/-! The claims. -/

/-- C1: Port uniqueness — along every sequence of registry events
(allocations by `AssignPort` / the inline allocation in `handleTunnel`,
interleaved with session teardowns), the ports held by the concurrently
active sessions are pairwise distinct: no two active sessions ever hold
the same `allocatedPort`. -/
theorem active_sessions_ports_nodup (evs : List Ev) :
    (runEvs evs).sessions.Nodup :=
  (runEvs_ok evs).1

/-- C2: Release idempotence — performing `Release(id)` (ReleasePort on the
session's port plus UnregisterHost on its host, as in `Handler.Close`)
twice in a row leaves the registry (`activePorts`, `hostMap`) exactly as
one execution leaves it; moreover releasing an identity that is not held
at all is a complete no-op (and never an error: both operations are total). -/
theorem release_idempotent (r : Registry) (p : ℕ) (h : String) :
    closeRelease (closeRelease r p h) p h = closeRelease r p h
    ∧ (p ∉ r.activePorts → lookupHost r.hostMap h = none → closeRelease r p h = r) := by
  constructor
  · simp [closeRelease, unregisterHost, releasePort, Finset.erase_idem, eraseHost_idem]
  · intro hp hl
    simp [closeRelease, unregisterHost, releasePort, Finset.erase_eq_of_not_mem hp,
      eraseHost_of_lookup_none _ _ hl]

/-- Witness for C2 at a concrete input: releasing (7, "h.x") twice from the
initial registry equals releasing once, and — since neither is held — is a
no-op. -/
theorem release_idempotent_witness :
    closeRelease (closeRelease Registry.init 7 "h.x") 7 "h.x"
        = closeRelease Registry.init 7 "h.x"
    ∧ closeRelease Registry.init 7 "h.x" = Registry.init := by
  have h := release_idempotent Registry.init 7 "h.x"
  exact ⟨h.1, h.2 (Finset.not_mem_empty 7) rfl⟩

/-- C3 counterexample: the claim "for every port p that was allocated and
then released, there exists a subsequent sequence of Allocate calls after
which some Allocate returns p again" is false at the concrete input
p = 10000: it is allocated from the initial registry, released, and no
sequence of subsequent Allocate calls ever returns it (every later
allocation scans upward from `nextPort = 10001`). -/
theorem released_port_reuse_false :
    (assignPort Registry.init).1 = 10000
    ∧ 10000 ∉ postRelease.activePorts
    ∧ ¬ ∃ n, 10000 ∈ (allocMany n postRelease).1 := by
  refine ⟨assignPort_init_fst, ?_, ?_⟩
  · simp [postRelease, releasePort, assignPort_init_fst]
  · rintro ⟨n, hn⟩
    have h1 := allocMany_ge n postRelease 10000 hn
    rw [postRelease_nextPort] at h1
    omega

/-- C3 amended: `ReleasePort` does remove the port from the active set, and
`AssignPort` scans upward from `nextPort`, skipping active ports (the
returned port is not active and not below `nextPort`); but because
`nextPort` never decreases, any port below `nextPort` — in particular every
previously allocated then released port — is never returned by any
subsequent sequence of Allocate calls: released ports are never actually
reused. -/
theorem release_frees_but_never_reuses (r : Registry) (p n : ℕ)
    (hp : p < r.nextPort) :
    p ∉ (releasePort r p).activePorts
    ∧ (assignPort r).1 ∉ r.activePorts
    ∧ r.nextPort ≤ (assignPort r).1
    ∧ p ∉ (allocMany n r).1 := by
  refine ⟨Finset.not_mem_erase _ _, scanPort_not_mem _ _, scanPort_ge _ _, ?_⟩
  intro hmem
  have := allocMany_ge n r p hmem
  omega

/-- Witness for C3's amended claim at the concrete post-release registry:
port 10000 (released, below `nextPort = 10001`) is absent from the next
four allocations. -/
theorem release_frees_but_never_reuses_witness :
    10000 ∉ (releasePort postRelease 10000).activePorts
    ∧ (assignPort postRelease).1 ∉ postRelease.activePorts
    ∧ postRelease.nextPort ≤ (assignPort postRelease).1
    ∧ 10000 ∉ (allocMany 4 postRelease).1 :=
  release_frees_but_never_reuses postRelease 10000 4
    (by rw [postRelease_nextPort]; omega)

/-- C4 counterexample: at allocated port 10000 and base domain
"example.com", the server's announcement (server.go:171) is the bare text
message `"10000.example.com"` — exactly the public identity and nothing
else.  It is not a structured message carrying a `sessionID` alongside the
identity: no JSON-encoded handshake pair (the structured encoding the
yamux iteration uses) ever equals this payload, its length being too
short for any such encoding. -/
theorem handshake_structured_reply_false :
    announceMsg 10000 "example.com" = (MsgType.text, "10000.example.com")
    ∧ ¬ ∃ info : HandshakeInfo,
        (announceMsg 10000 "example.com").2 = encodeHandshakeJSON info := by
  constructor
  · rfl
  · rintro ⟨info, h⟩
    have hlen := congrArg String.length h
    rw [encodeHandshakeJSON_length] at hlen
    have h17 : ((announceMsg 10000 "example.com").2).length = 17 := rfl
    omega

/-- C4 amended: in the registry-based server, the client's first payload is
the requested local port sent as UTF-8 text, and the server replies with a
single *text* message whose payload is exactly the public identity
`<allocatedPort>.<baseDomain>` — it contains no sessionID; the client's
`WaitForDomain` accepts exactly text messages (erroring on any other) and
returns the payload; the separate yamux iteration instead sends a single
structured message containing a session id and the base domain (and no
port-derived identity). -/
theorem handshake_wire_format_amended (r : Registry) (lp d s i b : String) :
    sendLocalPortMsg lp = (MsgType.text, lp)
    ∧ announceMsg (assignPort r).1 d = (MsgType.text, deriveIdentity (assignPort r).1 d)
    ∧ waitForDomain (announceMsg (assignPort r).1 d)
        = .ok (deriveIdentity (assignPort r).1 d)
    ∧ (handleTunnel r d (some lp) true true).2 = some (assignPort r).1
    ∧ waitForDomain (MsgType.binary, s)
        = .error "expected text message for domain assignment"
    ∧ runServerHandshakeMsg i b = ⟨i, b⟩ :=
  ⟨rfl, rfl, rfl, rfl, rfl, rfl⟩

/-- C5: evaluation of `handleTunnel` at the failing input — the client's
local port "3000" is read, allocation succeeds (port 10000 is marked
active and the identity is recorded in `hostMap`), then sending the
announcement fails.  The handshake has failed, yet the registry retains
the full allocation; `server.go` contains no code path that ever releases
it. -/
theorem failed_handshake_retains_allocation :
    (handleTunnel Registry.init "example.com" (some "3000") false true).2 = none
    ∧ (handleTunnel Registry.init "example.com" (some "3000") false true).1.activePorts
        = insert 10000 ∅
    ∧ lookupHost
        (handleTunnel Registry.init "example.com" (some "3000") false true).1.hostMap
        (deriveIdentity 10000 "example.com") = some 10000
    ∧ Registry.init.activePorts = ∅ := by
  refine ⟨rfl, ?_, ?_, rfl⟩
  · simp [handleTunnel, registerHost, assignPort, Registry.init, scanPort_empty]
  · simp only [handleTunnel, registerHost, assignPort, Registry.init]
    rw [scanPort_empty]
    simp [insertHost, lookupHost]

/-- C6: Reconnection backoff — for every pattern of attempt outcomes, the
waits inserted after failed attempts are non-decreasing, at most five
attempts are made, exhausting all five yields exactly the waits
1, 2, 4, 8, 16 seconds, and exhaustion makes the caller terminate the
client with the operator-visible fatal error "Failed to reconnect after
retries" rather than swallowing it. -/
theorem reconnect_backoff_contract (outcome : ℕ → Bool) :
    List.Pairwise (· ≤ ·) (reconnect outcome).1
    ∧ (reconnect outcome).1.length ≤ 5
    ∧ ((reconnect outcome).2 = false → (reconnect outcome).1 = [1, 2, 4, 8, 16])
    ∧ ((reconnect outcome).2 = false →
        afterReadError outcome = ClientFate.fatalExit "Failed to reconnect after retries") := by
  refine ⟨reconnectAux_pairwise outcome 5 0, reconnectAux_len outcome 5 0, ?_, ?_⟩
  · intro hfail
    rw [reconnect, reconnectAux_fail outcome 5 0 hfail]
    rfl
  · intro hfail
    simp [afterReadError, hfail]

/-- Witness for C6 at the concrete outcome where every attempt fails: all
five waits 1, 2, 4, 8, 16 are inserted, and the client exits fatally. -/
theorem reconnect_backoff_contract_witness :
    List.Pairwise (· ≤ ·) (reconnect fun _ => false).1
    ∧ (reconnect fun _ => false).1.length ≤ 5
    ∧ (reconnect fun _ => false).1 = [1, 2, 4, 8, 16]
    ∧ afterReadError (fun _ => false)
        = ClientFate.fatalExit "Failed to reconnect after retries" := by
  have h := reconnect_backoff_contract fun _ => false
  exact ⟨h.1, h.2.1, h.2.2.1 rfl, h.2.2.2 rfl⟩

/-- C7: Identity derivation and mapping consistency — the public identity
is a deterministic function of the allocated port and base domain that is
injective in the port (so the identity-to-port mapping is one-to-one), and
after recording `identity → port` the lookup of the derived identity
returns exactly the allocated port, both for a bare `RegisterHost` and for
the full successful `handleTunnel` run. -/
theorem identity_derivation_consistency (r : Registry) (p q : ℕ) (d lp : String)
    (m : List (String × ℕ)) :
    (deriveIdentity p d = deriveIdentity q d ↔ p = q)
    ∧ lookupHost (insertHost m (deriveIdentity p d) p) (deriveIdentity p d) = some p
    ∧ lookupHost (handleTunnel r d (some lp) true true).1.hostMap
        (deriveIdentity (assignPort r).1 d) = some (assignPort r).1 := by
  refine ⟨deriveIdentity_inj p q d, lookup_insertHost m _ p, ?_⟩
  simp only [handleTunnel, registerHost]
  exact lookup_insertHost _ _ _

/-- C8: Transport adapter read contract — when all pending physical frames
are binary, every successful `wsConn.Read` returns the next bytes of the
concatenated payload stream (callers never observe frame boundaries: what
is read plus what remains is exactly what was there); and if the next
frame is non-binary while the buffer is drained, the read fails with the
protocol-violation error instead of delivering bytes. -/
theorem wsconn_read_contract (c : WsState) (cap : ℕ) :
    (∀ out c', (∀ f ∈ c.frames, f.1 = MsgType.binary) →
        wsConnRead c cap = .ok (out, c') → out ++ streamBytes c' = streamBytes c)
    ∧ (∀ pl, c.readBuf = [] → c.frames.head? = some (MsgType.text, pl) →
        wsConnRead c cap = .error "expected binary message") := by
  constructor
  · intro out c' hbin h
    exact wsConnRead_ok_stream c cap out c' hbin h
  · intro pl hbuf hhead
    obtain ⟨frames, readBuf⟩ := c
    subst hbuf
    cases frames with
    | nil => simp at hhead
    | cons f rest =>
      simp only [List.head?_cons, Option.some.injEq] at hhead
      subst hhead
      rfl

/-- Witness for C8 at concrete inputs: reading 2 bytes from the stream
[1,2,3],[4,5] preserves the concatenation, and a text frame at the head
fails the read with the protocol error. -/
theorem wsconn_read_contract_witness :
    [1, 2] ++ streamBytes ⟨[(MsgType.binary, [4, 5])], [3]⟩
        = streamBytes ⟨[(MsgType.binary, [1, 2, 3]), (MsgType.binary, [4, 5])], []⟩
    ∧ wsConnRead ⟨[(MsgType.text, [7])], []⟩ 1 = .error "expected binary message" := by
  constructor
  · exact (wsconn_read_contract ⟨[(MsgType.binary, [1, 2, 3]), (MsgType.binary, [4, 5])], []⟩ 2).1
      [1, 2] ⟨[(MsgType.binary, [4, 5])], [3]⟩ (by decide) rfl
  · exact (wsconn_read_contract ⟨[(MsgType.text, [7])], []⟩ 1).2 [7] rfl rfl

/-- C9: the `ws.Connection.ReadMessage` wrappers of both the client and the
server package return `(nil, nil)` for any non-binary data message
(silently discarding it), return the payload with nil error for a binary
message, and return a non-nil error exactly when the underlying transport
read fails. -/
theorem readMessage_contract (e : String) (m : List ℕ)
    (res : Except String (MsgType × List ℕ)) :
    clientReadMessage (.error e) = (none, some e)
    ∧ clientReadMessage (.ok (.text, m)) = (none, none)
    ∧ clientReadMessage (.ok (.binary, m)) = (some m, none)
    ∧ serverWsReadMessage (.error e) = (none, some e)
    ∧ serverWsReadMessage (.ok (.text, m)) = (none, none)
    ∧ serverWsReadMessage (.ok (.binary, m)) = (some m, none)
    ∧ ((clientReadMessage res).2 ≠ none ↔ ∃ e2, res = .error e2) := by
  refine ⟨rfl, rfl, rfl, rfl, rfl, rfl, ?_⟩
  cases res with
  | error e2 => simp [clientReadMessage]
  | ok tm =>
    obtain ⟨t, msg⟩ := tm
    cases t <;> simp [clientReadMessage]

/-- C10: `AssignPort` never fails — the Go error result is the literal nil
on every path (there is no registry-exhaustion branch) — and the returned
port values are unbounded above: from any registry state, a long enough
run of allocations returns a port exceeding any bound (in particular
65535, the top of the valid TCP port range). -/
theorem assignPort_total_unbounded (r : Registry) (bound : ℕ) :
    (assignPortGo r).1.2 = none
    ∧ ∃ n q, q ∈ (allocMany n r).1 ∧ bound < q := by
  refine ⟨rfl, ?_⟩
  obtain ⟨q, hq, hge⟩ := allocMany_exists_big (bound + 1) r
  exact ⟨bound + 1 + 1, q, hq, by omega⟩

end Tunnel
